import Mathlib

/-!
Verification of the resolver-environment core
(`crates/uv-resolver/src/resolver/environment.rs`).

The file first embeds the external collaborators that the core depends on
(marker expressions, environment descriptors, Python requirements, fork
states), modelled from the specification where their code is not part of
this repository slice, then embeds `ResolverEnvironment` and its operations
directly from the source, and finally proves the stated properties.
-/

/-- Modelled from the spec: a language version value (the `uv_pep440`
version type is not in this repository slice). Only the major/minor
components matter for the properties considered here; ordering is
lexicographic. -/
structure Version where
  major : Nat
  minor : Nat
  deriving DecidableEq

/-- Lexicographic order on versions, as a boolean test. -/
def Version.le (a b : Version) : Bool :=
  decide (a.major < b.major ∨ (a.major = b.major ∧ a.minor ≤ b.minor))

/-- Strict order on versions, derived from `Version.le`. -/
def Version.lt (a b : Version) : Bool :=
  !(Version.le b a)

theorem Version.le_refl (a : Version) : Version.le a a = true := by
  simp [Version.le]

theorem Version.le_trans {a b c : Version} (h1 : Version.le a b = true)
    (h2 : Version.le b c = true) : Version.le a c = true := by
  simp [Version.le] at h1 h2 ⊢
  omega

theorem Version.le_of_not_le {a b : Version} (h : Version.le a b = false) :
    Version.le b a = true := by
  simp [Version.le] at h ⊢
  omega

theorem Version.zero_le (a : Version) : Version.le ⟨0, 0⟩ a = true := by
  simp [Version.le]
  omega

/-- Modelled from the spec: the external Marker Expression type
(`uv_pep508::MarkerTree`, not in this repository slice). An immutable
boolean formula over environment attributes: generic boolean attributes
(platform, implementation, ...) and comparisons on the language version.
It supports conjunction (the `and` constructor doubles as the `and`
operation used by `narrow_markers`), an always-true constant `tru`,
truth testing, disjointness testing and evaluation, as required by the
spec's interface for marker expressions. -/
inductive MarkerTree where
  | tru : MarkerTree
  | fls : MarkerTree
  | attr : Nat → MarkerTree
  | pythonGe : Version → MarkerTree
  | pythonLt : Version → MarkerTree
  | not : MarkerTree → MarkerTree
  | and : MarkerTree → MarkerTree → MarkerTree
  | or : MarkerTree → MarkerTree → MarkerTree
  deriving DecidableEq

/-- Modelled from the spec: the Environment Descriptor
(`uv_pep508::MarkerEnvironment`, not in this repository slice): a concrete
snapshot of environment attributes, against which marker expressions are
evaluated. -/
structure MarkerEnvironment where
  pythonFullVersion : Version
  attrs : Nat → Bool

/-- Modelled from the spec: `uv_pypi_types::ResolverMarkerEnvironment` is a
thin wrapper around a marker environment; it is identified with the
descriptor itself here. -/
abbrev ResolverMarkerEnvironment := MarkerEnvironment

/-- Modelled from the spec: evaluation of a marker expression against a
concrete environment descriptor (true iff the descriptor satisfies it). -/
def MarkerTree.evaluate (m : MarkerTree) (env : MarkerEnvironment) : Bool :=
  match m with
  | .tru => true
  | .fls => false
  | .attr n => env.attrs n
  | .pythonGe v => Version.le v env.pythonFullVersion
  | .pythonLt v => Version.lt env.pythonFullVersion v
  | .not x => !(x.evaluate env)
  | .and l r => l.evaluate env && r.evaluate env
  | .or l r => l.evaluate env || r.evaluate env

/-- The generic boolean attributes mentioned by a marker expression. -/
def MarkerTree.attrVars : MarkerTree → List Nat
  | .attr n => [n]
  | .not x => x.attrVars
  | .and l r => l.attrVars ++ r.attrVars
  | .or l r => l.attrVars ++ r.attrVars
  | _ => []

/-- The version constants mentioned by a marker expression. -/
def MarkerTree.verConsts : MarkerTree → List Version
  | .pythonGe v => [v]
  | .pythonLt v => [v]
  | .not x => x.verConsts
  | .and l r => l.verConsts ++ r.verConsts
  | .or l r => l.verConsts ++ r.verConsts
  | _ => []

/-- All assignments of the given attribute variables (every other variable
is false). Used to decide satisfiability questions about marker
expressions, which mention only finitely many attributes. -/
def boolAssignments : List Nat → List (Nat → Bool)
  | [] => [fun _ => false]
  | n :: ns =>
    (boolAssignments ns).flatMap fun f =>
      [Function.update f n false, Function.update f n true]

/-- The greatest version among `acc` and the members of `cs` that is at
most `x` (all of `acc` and the members used are expected to be at most
`x`). Serves as a representative version: every threshold comparison
against a constant in `cs` gives the same answer at `x` and at this
representative. -/
def bestBelow (x : Version) : List Version → Version → Version
  | [], acc => acc
  | c :: cs, acc =>
    bestBelow x cs (bif Version.le c x && Version.le acc c then c else acc)

theorem bestBelow_spec (x : Version) (cs : List Version) (acc : Version)
    (hacc : Version.le acc x = true) :
    Version.le (bestBelow x cs acc) x = true ∧
    Version.le acc (bestBelow x cs acc) = true ∧
    (bestBelow x cs acc = acc ∨ bestBelow x cs acc ∈ cs) ∧
    ∀ v ∈ cs, Version.le v x = true → Version.le v (bestBelow x cs acc) = true := by
  induction cs generalizing acc with
  | nil =>
    exact ⟨hacc, Version.le_refl acc, Or.inl rfl, by simp⟩
  | cons c cs ih =>
    cases hc : Version.le c x && Version.le acc c with
    | true =>
      have hc1 : Version.le c x = true := ((Bool.and_eq_true _ _).mp hc).1
      have hc2 : Version.le acc c = true := ((Bool.and_eq_true _ _).mp hc).2
      have hstep : bestBelow x (c :: cs) acc = bestBelow x cs c := by
        simp [bestBelow, hc]
      obtain ⟨h1, h2, h3, h4⟩ := ih c hc1
      refine ⟨hstep ▸ h1, hstep ▸ Version.le_trans hc2 h2, ?_, ?_⟩
      · rw [hstep]
        rcases h3 with h3 | h3
        · exact Or.inr (by rw [h3]; exact List.mem_cons_self c cs)
        · exact Or.inr (List.mem_cons_of_mem c h3)
      · intro v hv hvx
        rw [hstep]
        rcases List.mem_cons.mp hv with rfl | hv
        · exact h2
        · exact h4 v hv hvx
    | false =>
      have hstep : bestBelow x (c :: cs) acc = bestBelow x cs acc := by
        simp [bestBelow, hc]
      obtain ⟨h1, h2, h3, h4⟩ := ih acc hacc
      refine ⟨hstep ▸ h1, hstep ▸ h2, ?_, ?_⟩
      · rw [hstep]
        rcases h3 with h3 | h3
        · exact Or.inl h3
        · exact Or.inr (List.mem_cons_of_mem c h3)
      · intro v hv hvx
        rw [hstep]
        rcases List.mem_cons.mp hv with rfl | hv
        · have hca : Version.le acc v = false := by
            cases hav : Version.le acc v with
            | true => rw [hvx, hav] at hc; exact absurd hc (by simp)
            | false => rfl
          exact Version.le_trans (Version.le_of_not_le hca) h2
        · exact h4 v hv hvx

/-- Evaluation of a marker expression depends only on the attributes and
the version-threshold answers it mentions. -/
theorem MarkerTree.evaluate_congr (m : MarkerTree) (e1 e2 : MarkerEnvironment)
    (hA : ∀ n ∈ m.attrVars, e1.attrs n = e2.attrs n)
    (hV : ∀ v ∈ m.verConsts,
      Version.le v e1.pythonFullVersion = Version.le v e2.pythonFullVersion) :
    m.evaluate e1 = m.evaluate e2 := by
  induction m with
  | tru => rfl
  | fls => rfl
  | attr n => exact hA n (by simp [MarkerTree.attrVars])
  | pythonGe v => exact hV v (by simp [MarkerTree.verConsts])
  | pythonLt v =>
    have := hV v (by simp [MarkerTree.verConsts])
    simp [MarkerTree.evaluate, Version.lt, this]
  | not x ih =>
    have := ih hA hV
    simp [MarkerTree.evaluate, this]
  | and l r ihl ihr =>
    have hl := ihl (fun n hn => hA n (by simp [MarkerTree.attrVars, hn]))
      (fun v hv => hV v (by simp [MarkerTree.verConsts, hv]))
    have hr := ihr (fun n hn => hA n (by simp [MarkerTree.attrVars, hn]))
      (fun v hv => hV v (by simp [MarkerTree.verConsts, hv]))
    simp [MarkerTree.evaluate, hl, hr]
  | or l r ihl ihr =>
    have hl := ihl (fun n hn => hA n (by simp [MarkerTree.attrVars, hn]))
      (fun v hv => hV v (by simp [MarkerTree.verConsts, hv]))
    have hr := ihr (fun n hn => hA n (by simp [MarkerTree.attrVars, hn]))
      (fun v hv => hV v (by simp [MarkerTree.verConsts, hv]))
    simp [MarkerTree.evaluate, hl, hr]

/-- Every attribute assignment agrees on the listed variables with one of
the enumerated assignments. -/
theorem boolAssignments_complete (ns : List Nat) (g : Nat → Bool) :
    ∃ f ∈ boolAssignments ns, ∀ n ∈ ns, f n = g n := by
  induction ns with
  | nil => exact ⟨fun _ => false, by simp [boolAssignments], by simp⟩
  | cons n ns ih =>
    obtain ⟨f, hf, hagree⟩ := ih
    refine ⟨Function.update f n (g n), ?_, ?_⟩
    · simp only [boolAssignments, List.mem_flatMap]
      refine ⟨f, hf, ?_⟩
      cases hg : g n <;> simp [hg]
    · intro m hm
      by_cases hmn : m = n
      · subst hmn
        simp
      · rw [Function.update_noteq hmn]
        exact hagree m (by rcases List.mem_cons.mp hm with h | h
                           · exact absurd h hmn
                           · exact h)

/-- Modelled from the spec: truth testing for marker expressions (the
external representation is canonical, so testing for the always-true
constant is its truth test; here it is the syntactic constant `tru`). -/
def MarkerTree.is_true : MarkerTree → Bool
  | .tru => true
  | _ => false

/-- Modelled from the spec: disjointness testing for marker expressions.
Two expressions are disjoint when no environment matches both; this is
decided by enumerating the finitely many relevant attribute assignments
and language-version regions (a formula's threshold atoms are constant on
the regions delimited by its version constants). -/
def MarkerTree.is_disjoint (l r : MarkerTree) : Bool :=
  ((⟨0, 0⟩ : Version) :: (l.verConsts ++ r.verConsts)).all fun y =>
    (boolAssignments (l.attrVars ++ r.attrVars)).all fun f =>
      !(l.evaluate ⟨y, f⟩ && r.evaluate ⟨y, f⟩)

/-- The disjointness test answers the semantic question: `is_disjoint`
holds exactly when no environment descriptor satisfies both expressions. -/
theorem MarkerTree.is_disjoint_iff (l r : MarkerTree) :
    l.is_disjoint r = true ↔
      ∀ env : MarkerEnvironment,
        ¬(l.evaluate env = true ∧ r.evaluate env = true) := by
  constructor
  · intro h env hboth
    obtain ⟨f, hfmem, hfagree⟩ :=
      boolAssignments_complete (l.attrVars ++ r.attrVars) env.attrs
    obtain ⟨hyx, -, hymem, hmax⟩ :=
      bestBelow_spec env.pythonFullVersion (l.verConsts ++ r.verConsts) ⟨0, 0⟩
        (Version.zero_le env.pythonFullVersion)
    set y := bestBelow env.pythonFullVersion (l.verConsts ++ r.verConsts) ⟨0, 0⟩
      with hy
    have hagree : ∀ v ∈ l.verConsts ++ r.verConsts,
        Version.le v env.pythonFullVersion = Version.le v y := by
      intro v hv
      cases hvx : Version.le v env.pythonFullVersion with
      | true => exact (hmax v hv hvx).symm
      | false =>
        cases hvy : Version.le v y with
        | false => rfl
        | true =>
          have := Version.le_trans hvy hyx
          rw [hvx] at this
          exact absurd this (by simp)
    have hl : l.evaluate ⟨y, f⟩ = true := by
      have hcongr := MarkerTree.evaluate_congr l env ⟨y, f⟩
        (fun n hn => (hfagree n (List.mem_append_left _ hn)).symm)
        (fun v hv => hagree v (List.mem_append_left _ hv))
      rw [← hcongr]
      exact hboth.1
    have hr : r.evaluate ⟨y, f⟩ = true := by
      have hcongr := MarkerTree.evaluate_congr r env ⟨y, f⟩
        (fun n hn => (hfagree n (List.mem_append_right _ hn)).symm)
        (fun v hv => hagree v (List.mem_append_right _ hv))
      rw [← hcongr]
      exact hboth.2
    simp only [MarkerTree.is_disjoint, List.all_eq_true] at h
    have hmem_y : y ∈ (⟨0, 0⟩ : Version) :: (l.verConsts ++ r.verConsts) := by
      rcases hymem with h0 | h0
      · rw [h0]
        exact List.mem_cons_self _ _
      · exact List.mem_cons_of_mem _ h0
    have hcheck := h y hmem_y f hfmem
    rw [hl, hr] at hcheck
    exact absurd hcheck (by simp)
  · intro h
    simp only [MarkerTree.is_disjoint, List.all_eq_true]
    intro y hy f hf
    cases hl : l.evaluate ⟨y, f⟩ with
    | false => simp [hl]
    | true =>
      cases hr : r.evaluate ⟨y, f⟩ with
      | false => simp [hr]
      | true => exact absurd ⟨hl, hr⟩ (h ⟨y, f⟩)

/-- The specific kind of resolver environment, from the source: either
pinned to one concrete marker environment, or universal with an initial
seed list of fork marker expressions and the current markers of this
resolver fork. -/
inductive Kind where
  | Specific : ResolverMarkerEnvironment → Kind
  | Universal : List MarkerTree → MarkerTree → Kind

/-- The environment that dependencies must satisfy in a resolution, from
the source (`ResolverEnvironment` in `environment.rs`). -/
structure ResolverEnvironment where
  kind : Kind

/-- Source `ResolverEnvironment::specific`: a resolver environment fixed
to one and only one marker environment. -/
def ResolverEnvironment.specific
    (marker_env : ResolverMarkerEnvironment) : ResolverEnvironment :=
  ⟨Kind.Specific marker_env⟩

/-- Source `ResolverEnvironment::universal`: a resolver environment for a
multi-platform resolution; its current markers start as the always-true
constant. -/
def ResolverEnvironment.universal
    (initial_forks : List MarkerTree) : ResolverEnvironment :=
  ⟨Kind.Universal initial_forks MarkerTree.tru⟩

/-- A universal resolver environment with an arbitrary current marker
expression, as reached from `ResolverEnvironment.universal` by narrowing.
This names the internal `Kind::Universal` state so that theorems can
quantify over every universal environment, not only freshly built ones. -/
def universalWith (initial_forks : List MarkerTree)
    (markers : MarkerTree) : ResolverEnvironment :=
  ⟨Kind.Universal initial_forks markers⟩

/-- Source `ResolverEnvironment::included`. -/
def ResolverEnvironment.included
    (e : ResolverEnvironment) (marker : MarkerTree) : Bool :=
  match e.kind with
  | .Specific marker_env => marker.evaluate marker_env
  | .Universal _ markers => !(markers.is_disjoint marker)

/-- Source `ResolverEnvironment::in_fork`. -/
def ResolverEnvironment.in_fork
    (e : ResolverEnvironment) (marker : MarkerTree) : Bool :=
  match e.kind with
  | .Specific _ => true
  | .Universal _ markers => !(markers.is_disjoint marker)

/-- Source `ResolverEnvironment::marker_environment`. -/
def ResolverEnvironment.marker_environment
    (e : ResolverEnvironment) : Option MarkerEnvironment :=
  match e.kind with
  | .Specific marker_env => some marker_env
  | .Universal _ _ => none

/-- Source `ResolverEnvironment::narrow_markers`: a no-op clone for a
specific environment; for a universal environment, a new value with the
same initial forks and the conjunction of the current markers with the
given expression. The embedding is pure, matching the source's
never-mutates-the-receiver contract. -/
def ResolverEnvironment.narrow_markers
    (e : ResolverEnvironment) (rhs : MarkerTree) : ResolverEnvironment :=
  match e.kind with
  | .Specific _ => e
  | .Universal initial_forks lhs => ⟨Kind.Universal initial_forks (lhs.and rhs)⟩

/-- Source `ResolverEnvironment::markers`: the always-true constant for a
specific environment, the current markers for a universal one. -/
def ResolverEnvironment.markers (e : ResolverEnvironment) : MarkerTree :=
  match e.kind with
  | .Specific _ => MarkerTree.tru
  | .Universal _ markers => markers

/-- Source `ResolverEnvironment::try_markers`. -/
def ResolverEnvironment.try_markers
    (e : ResolverEnvironment) : Option MarkerTree :=
  match e.kind with
  | .Specific _ => none
  | .Universal _ markers =>
    bif markers.is_true then none else some markers

/-- Modelled from the spec: the Fork State is the external per-branch
search state of the resolution engine (`crate::resolver::ForkState`, not
in this repository slice). Beyond its resolver environment it carries
further search state that the core never touches, represented opaquely. -/
structure ForkState where
  env : ResolverEnvironment
  rest : Nat

/-- Modelled from the spec: `ForkState::with_env` produces a clone of the
fork state narrowed to the given seed marker expression (the rest of the
search state is carried over unchanged). -/
def ForkState.with_env (s : ForkState) (m : MarkerTree) : ForkState :=
  ⟨s.env.narrow_markers m, s.rest⟩

/-- Source `ResolverEnvironment::forked_states`: a single unchanged state
for a specific environment or an empty seed list; otherwise one clone of
the input state per seed, narrowed to that seed, in reverse seed order. -/
def ResolverEnvironment.forked_states
    (e : ResolverEnvironment) (init : ForkState) : List ForkState :=
  match e.kind with
  | .Specific _ => [init]
  | .Universal initial_forks _ =>
    bif initial_forks.isEmpty then [init]
    else initial_forks.reverse.map fun initial_fork => init.with_env initial_fork

/-- Modelled from the spec: a language-version range
(`crate::requires_python::RequiresPythonRange`, not in this repository
slice), with an optional inclusive lower bound and an optional exclusive
upper bound. -/
structure RequiresPythonRange where
  lower : Option Version
  upper : Option Version
  deriving DecidableEq

/-- Membership of a version in a language-version range. -/
def RequiresPythonRange.containsVer (r : RequiresPythonRange) (v : Version) : Bool :=
  (match r.lower with
   | none => true
   | some lo => Version.le lo v) &&
  (match r.upper with
   | none => true
   | some hi => Version.lt v hi)

/-- Intersection of two language-version ranges: the larger lower bound
with the smaller upper bound. -/
def RequiresPythonRange.intersect (a b : RequiresPythonRange) : RequiresPythonRange :=
  ⟨match a.lower, b.lower with
   | none, l => l
   | l, none => l
   | some la, some lb => some (bif Version.le la lb then lb else la),
   match a.upper, b.upper with
   | none, u => u
   | u, none => u
   | some ua, some ub => some (bif Version.le ua ub then ua else ub)⟩

/-- Emptiness test for a language-version range: a bounded range is empty
when the upper bound does not exceed the lower bound. -/
def RequiresPythonRange.isEmptyRange (r : RequiresPythonRange) : Bool :=
  match r.lower, r.upper with
  | some lo, some hi => !(Version.lt lo hi)
  | _, _ => false

/-- Modelled from the spec: a Python requirement (`crate::PythonRequirement`,
not in this repository slice), carrying the feasible language-version
window of the branch. -/
structure PythonRequirement where
  range : RequiresPythonRange
  deriving DecidableEq

/-- Modelled from the spec: narrowing a requirement to a version range
yields the requirement restricted to their intersection, and is absent
when that intersection is empty or impossible. -/
def PythonRequirement.narrow
    (p : PythonRequirement) (target : RequiresPythonRange) : Option PythonRequirement :=
  bif (p.range.intersect target).isEmptyRange then none
  else some ⟨p.range.intersect target⟩

/-- Modelled from the spec: `crate::marker::requires_python` derives from a
marker expression the tightest known constraint on the language version,
and is absent when the expression implies no version constraint (in
particular for the always-true constant). Threshold atoms yield their
half-bounded range; a conjunction combines whatever its two sides imply;
no constraint is derived from the other forms. -/
def requires_python : MarkerTree → Option RequiresPythonRange
  | .pythonGe v => some ⟨some v, none⟩
  | .pythonLt v => some ⟨none, some v⟩
  | .and l r =>
    match requires_python l, requires_python r with
    | none, none => none
    | some a, none => some a
    | none, some b => some b
    | some a, some b => some (a.intersect b)
  | _ => none

/-- Source `ResolverEnvironment::requires_python_range`: the version range
derived from this environment's markers. -/
def ResolverEnvironment.requires_python_range
    (e : ResolverEnvironment) : Option RequiresPythonRange :=
  requires_python e.markers

/-- Source `ResolverEnvironment::narrow_python_requirement`: narrows the
given requirement to the derived range, absent when either step fails. -/
def ResolverEnvironment.narrow_python_requirement
    (e : ResolverEnvironment) (python_requirement : PythonRequirement) :
    Option PythonRequirement :=
  e.requires_python_range.bind fun r => python_requirement.narrow r

/-- Modelled from the spec: a textual form of a marker expression (the
external renderer used by the source's debug formatting). -/
def MarkerTree.render : MarkerTree → String
  | .tru => "true"
  | .fls => "false"
  | .attr n => "attr" ++ toString n
  | .pythonGe v =>
    "python_full_version >= " ++ toString v.major ++ "." ++ toString v.minor
  | .pythonLt v =>
    "python_full_version < " ++ toString v.major ++ "." ++ toString v.minor
  | .not x => "not (" ++ x.render ++ ")"
  | .and l r => "(" ++ l.render ++ " and " ++ r.render ++ ")"
  | .or l r => "(" ++ l.render ++ " or " ++ r.render ++ ")"

/-- Source `impl Display for ResolverEnvironment`: the human-readable
rendering of a resolver environment. -/
def ResolverEnvironment.displayString (e : ResolverEnvironment) : String :=
  match e.kind with
  | .Specific _ => "Marker Environment"
  | .Universal _ markers =>
    bif markers.is_true then "All Marker Environments"
    else "Split `" ++ markers.render ++ "`"

/-- A concrete environment descriptor whose language version is 3.11,
used for concrete instantiations. -/
def d311 : MarkerEnvironment :=
  ⟨⟨3, 11⟩, fun _ => false⟩

/-- A concrete Python requirement standing for a requires-python lower
bound of 3.8. -/
def reqGe38 : PythonRequirement :=
  ⟨⟨some ⟨3, 8⟩, none⟩⟩

/-- A concrete fork state used for concrete instantiations. -/
def fs0 : ForkState :=
  ⟨ResolverEnvironment.universal [], 0⟩

/-- A concrete environment descriptor with every attribute set, used for
concrete instantiations. -/
def envAllTrue : MarkerEnvironment :=
  ⟨⟨3, 11⟩, fun _ => true⟩

theorem list_get_congr {α : Type} {l l' : List α} (h : l = l') (i : Nat)
    (hi : i < l.length) (hi' : i < l'.length) :
    l.get ⟨i, hi⟩ = l'.get ⟨i, hi'⟩ := by
  subst h
  rfl

theorem list_get_map {α β : Type} (f : α → β) (l : List α) (i : Nat)
    (hi : i < (l.map f).length) (hi' : i < l.length) :
    (l.map f).get ⟨i, hi⟩ = f (l.get ⟨i, hi'⟩) := by
  simp

theorem list_get_reverse {α : Type} (l : List α) (i : Nat)
    (hi : i < l.reverse.length) (hi' : l.length - 1 - i < l.length) :
    l.reverse.get ⟨i, hi⟩ = l.get ⟨l.length - 1 - i, hi'⟩ := by
  rw [List.get_eq_getElem, List.get_eq_getElem]
  simp [List.getElem_reverse]

/-- C1: for a Specific resolver environment pinned to descriptor `d`,
`included m` returns exactly the result of evaluating `m` against `d`; for
a Universal environment with current marker expression `E`, `included m`
returns true if and only if `E` is not disjoint from `m`, i.e. some
environment descriptor matches both. -/
theorem included_correct :
    (∀ (d : MarkerEnvironment) (m : MarkerTree),
      (ResolverEnvironment.specific d).included m = m.evaluate d) ∧
    ∀ (seeds : List MarkerTree) (E m : MarkerTree),
      (universalWith seeds E).included m = true ↔
        ∃ env : MarkerEnvironment,
          E.evaluate env = true ∧ m.evaluate env = true := by
  refine ⟨fun d m => rfl, fun seeds E m => ?_⟩
  have hiff := MarkerTree.is_disjoint_iff E m
  show (!(E.is_disjoint m)) = true ↔ _
  constructor
  · intro h
    by_contra hno
    have hdisj : E.is_disjoint m = true :=
      hiff.mpr fun env hc => hno ⟨env, hc.1, hc.2⟩
    rw [hdisj] at h
    exact absurd h (by simp)
  · rintro ⟨env, h1, h2⟩
    cases hd : E.is_disjoint m with
    | false => rfl
    | true => exact absurd ⟨h1, h2⟩ (hiff.mp hd env)

/-- C2 fails on the code: for a Specific environment built from a
descriptor with language version 3.11, `narrow_python_requirement` applied
to a requirement standing for ">=3.8" returns absent rather than a present
requirement, because a pinned environment's markers are the always-true
constant, from which no language-version range is derivable. -/
theorem scenarioC_counterexample :
    ((ResolverEnvironment.specific d311).narrow_python_requirement
      reqGe38).isSome = false := rfl

/-- C2 amended: for every Specific resolver environment — in particular one
built from a descriptor with language version 3.11 —
`narrow_python_requirement` returns absent for every requirement (the
pinned environment's marker expression is the always-true constant, which
implies no language-version constraint), while `marker_environment`
returns the descriptor and `try_markers` returns absent. -/
theorem scenarioC_amended :
    (∀ (d : MarkerEnvironment) (p : PythonRequirement),
      (ResolverEnvironment.specific d).narrow_python_requirement p = none) ∧
    (∀ d : MarkerEnvironment,
      (ResolverEnvironment.specific d).marker_environment = some d) ∧
    ∀ d : MarkerEnvironment,
      (ResolverEnvironment.specific d).try_markers = none :=
  ⟨fun _ _ => rfl, fun _ => rfl, fun _ => rfl⟩

/-- C3: for every Universal resolver environment with a non-empty seed
list and every input fork state, `forked_states` produces one fork per
seed in reverse of the seeds' input order — the fork at position `i` is a
clone of the input state narrowed to the seed at position
`length - 1 - i` — so the last-listed seed becomes the first produced
fork state. -/
theorem forked_states_reverse_order (seeds : List MarkerTree)
    (E : MarkerTree) (init : ForkState) (h : seeds ≠ []) :
    ((universalWith seeds E).forked_states init).length = seeds.length ∧
    ∀ i (hi : i < ((universalWith seeds E).forked_states init).length),
      ((universalWith seeds E).forked_states init).get ⟨i, hi⟩ =
        init.with_env (seeds.get ⟨seeds.length - 1 - i, by
          have := List.length_pos.mpr h
          omega⟩) := by
  have hne : seeds.isEmpty = false := by
    cases seeds with
    | nil => exact absurd rfl h
    | cons a l => rfl
  have hout : (universalWith seeds E).forked_states init =
      seeds.reverse.map fun s => init.with_env s := by
    show (bif seeds.isEmpty then [init] else _) = _
    rw [hne]
    rfl
  have hlen : ((universalWith seeds E).forked_states init).length = seeds.length := by
    rw [hout]
    simp
  refine ⟨hlen, fun i hi => ?_⟩
  have hi1 : i < (seeds.reverse.map fun s => init.with_env s).length := by
    rw [← hout]
    exact hi
  have hi2 : i < seeds.reverse.length := by
    simpa using hi1
  have hi3 : seeds.length - 1 - i < seeds.length := by
    have := List.length_pos.mpr h
    omega
  rw [list_get_congr hout i hi hi1,
    list_get_map (fun s => init.with_env s) seeds.reverse i hi1 hi2,
    list_get_reverse seeds i hi2 hi3]

/-- Concrete run of the reversal theorem on three seeds. -/
theorem forked_states_reverse_order_witness :
    ((universalWith [MarkerTree.attr 0, MarkerTree.attr 1, MarkerTree.attr 2]
        MarkerTree.tru).forked_states fs0).length = 3 ∧
    ((universalWith [MarkerTree.attr 0, MarkerTree.attr 1, MarkerTree.attr 2]
        MarkerTree.tru).forked_states fs0).get ⟨0, by decide⟩ =
      fs0.with_env (MarkerTree.attr 2) := by
  have h := forked_states_reverse_order
    [MarkerTree.attr 0, MarkerTree.attr 1, MarkerTree.attr 2]
    MarkerTree.tru fs0 (by decide)
  exact ⟨h.1, h.2 0 (by decide)⟩

/-- C4: for every Specific resolver environment, and for every Universal
resolver environment whose seed list is empty, `forked_states` returns the
one-element sequence containing exactly the input fork state unchanged. -/
theorem forked_states_noop :
    (∀ (d : MarkerEnvironment) (init : ForkState),
      (ResolverEnvironment.specific d).forked_states init = [init]) ∧
    ∀ (E : MarkerTree) (init : ForkState),
      (universalWith [] E).forked_states init = [init] :=
  ⟨fun _ _ => rfl, fun _ _ => rfl⟩

/-- C5: `narrow_markers` on a Specific environment returns the original
environment itself (hence an environment observably equivalent under every
query operation); on a Universal environment it returns a new environment
with the same seed list and a current marker expression equal to the
conjunction of the previous expression and the argument. The embedding is
pure, so the receiver is never mutated. -/
theorem narrow_markers_behavior :
    (∀ (d : MarkerEnvironment) (m : MarkerTree),
      (ResolverEnvironment.specific d).narrow_markers m =
        ResolverEnvironment.specific d) ∧
    ∀ (seeds : List MarkerTree) (E m : MarkerTree),
      (universalWith seeds E).narrow_markers m =
        universalWith seeds (E.and m) :=
  ⟨fun _ _ => rfl, fun _ _ _ => rfl⟩

/-- C6: narrowing is monotone: every environment descriptor matched by the
current marker expression of a narrowed Universal environment is also
matched by the current marker expression of the original environment. -/
theorem narrow_markers_monotone (seeds : List MarkerTree) (E m : MarkerTree)
    (env : MarkerEnvironment)
    (h : (((universalWith seeds E).narrow_markers m).markers).evaluate env = true) :
    ((universalWith seeds E).markers).evaluate env = true := by
  have hand : (E.and m).evaluate env = true := h
  exact ((Bool.and_eq_true _ _).mp hand).1

/-- Concrete run of the monotonicity theorem. -/
theorem narrow_markers_monotone_witness :
    ((universalWith [] (MarkerTree.attr 0)).markers).evaluate envAllTrue = true :=
  narrow_markers_monotone [] (MarkerTree.attr 0) (MarkerTree.attr 1) envAllTrue rfl

/-- C7: `in_fork` on a Specific environment returns true for every marker
expression; on a Universal environment it returns the same result as
`included` (the non-disjointness test against the current markers). -/
theorem in_fork_behavior :
    (∀ (d : MarkerEnvironment) (m : MarkerTree),
      (ResolverEnvironment.specific d).in_fork m = true) ∧
    ∀ (seeds : List MarkerTree) (E m : MarkerTree),
      (universalWith seeds E).in_fork m = (universalWith seeds E).included m :=
  ⟨fun _ _ => rfl, fun _ _ _ => rfl⟩

/-- C8: `narrow_python_requirement` returns absent exactly when no
language-version range is derivable from the branch's markers, or when
narrowing the requirement against the derived range is absent; narrowing
itself is absent exactly when the intersection of the requirement's window
with the range is empty; and in the remaining case the narrowed
requirement is returned. -/
theorem narrow_python_requirement_characterization
    (e : ResolverEnvironment) (p : PythonRequirement) :
    (e.narrow_python_requirement p = none ↔
      e.requires_python_range = none ∨
        ∃ r, e.requires_python_range = some r ∧ p.narrow r = none) ∧
    (∀ r, p.narrow r = none ↔ (p.range.intersect r).isEmptyRange = true) ∧
    ∀ r q, e.requires_python_range = some r → p.narrow r = some q →
      e.narrow_python_requirement p = some q := by
  refine ⟨?_, ?_, ?_⟩
  · cases hr : e.requires_python_range with
    | none => simp [ResolverEnvironment.narrow_python_requirement, hr]
    | some r => simp [ResolverEnvironment.narrow_python_requirement, hr]
  · intro r
    cases hb : (p.range.intersect r).isEmptyRange with
    | true => simp [PythonRequirement.narrow, hb]
    | false => simp [PythonRequirement.narrow, hb]
  · intro r q hr hq
    simp [ResolverEnvironment.narrow_python_requirement, hr, hq]

/-- Concrete run of the narrowing characterization: a branch whose markers
require at least Python 3.8 narrows an unconstrained requirement to the
window at least 3.8. -/
theorem narrow_python_requirement_characterization_witness :
    (universalWith [] (MarkerTree.pythonGe ⟨3, 8⟩)).narrow_python_requirement
      ⟨⟨none, none⟩⟩ = some ⟨⟨some ⟨3, 8⟩, none⟩⟩ :=
  (narrow_python_requirement_characterization
    (universalWith [] (MarkerTree.pythonGe ⟨3, 8⟩)) ⟨⟨none, none⟩⟩).2.2
    ⟨some ⟨3, 8⟩, none⟩ ⟨⟨some ⟨3, 8⟩, none⟩⟩ rfl rfl

/-- C9 fails on the code: the rendering of a Specific environment is the
label "Marker Environment", not "single environment". -/
theorem display_counterexample :
    (ResolverEnvironment.specific d311).displayString ≠ "single environment" := by
  decide

/-- C9 amended: the rendering of a Specific environment is the fixed label
"Marker Environment"; a Universal environment renders as
"All Marker Environments" when its current marker expression is the
always-true constant, and otherwise as a textual form of its marker
expression wrapped as a split label. -/
theorem display_amended :
    (∀ d : MarkerEnvironment,
      (ResolverEnvironment.specific d).displayString = "Marker Environment") ∧
    (∀ seeds : List MarkerTree,
      (universalWith seeds MarkerTree.tru).displayString =
        "All Marker Environments") ∧
    ∀ (seeds : List MarkerTree) (E : MarkerTree), E.is_true = false →
      (universalWith seeds E).displayString =
        "Split `" ++ E.render ++ "`" := by
  refine ⟨fun _ => rfl, fun _ => rfl, fun seeds E h => ?_⟩
  show (bif E.is_true then _ else _) = _
  rw [h]
  rfl

/-- Concrete run of the rendering theorem on a constrained universal
environment. -/
theorem display_amended_witness :
    (universalWith [] (MarkerTree.attr 0)).displayString =
      "Split `" ++ (MarkerTree.attr 0).render ++ "`" :=
  display_amended.2.2 [] (MarkerTree.attr 0) rfl

/-- C10: for every Universal resolver environment with a non-empty seed
list, `forked_states` returns exactly one fork state per seed,
unconditionally — no disjointness, satisfiability or coverage check on the
seeds — and the result does not depend on the environment's current
marker expression. -/
theorem forked_states_count_independent (seeds : List MarkerTree)
    (E F : MarkerTree) (init : ForkState) (h : seeds ≠ []) :
    ((universalWith seeds E).forked_states init).length = seeds.length ∧
    (universalWith seeds E).forked_states init =
      (universalWith seeds F).forked_states init := by
  have hne : seeds.isEmpty = false := by
    cases seeds with
    | nil => exact absurd rfl h
    | cons a l => rfl
  have hout : ∀ G : MarkerTree, (universalWith seeds G).forked_states init =
      seeds.reverse.map fun s => init.with_env s := by
    intro G
    show (bif seeds.isEmpty then [init] else _) = _
    rw [hne]
    rfl
  constructor
  · rw [hout E]
    simp
  · rw [hout E, hout F]

/-- Concrete run of the unconditional-count theorem: two overlapping (in
fact identical, hence non-disjoint) seeds still produce two forks, for two
different current marker expressions. -/
theorem forked_states_count_independent_witness :
    ((universalWith [MarkerTree.attr 0, MarkerTree.attr 0]
        MarkerTree.tru).forked_states fs0).length = 2 :=
  (forked_states_count_independent [MarkerTree.attr 0, MarkerTree.attr 0]
    MarkerTree.tru MarkerTree.fls fs0 (by decide)).1
